import Mathlib

/-!
Shallow embedding of `midisynth` (src/main.rs): multi-track MIDI sequencer,
tick-to-time mapping, per-track note rendering, pan-law gain model and stereo
mixer.  Machine integers are modelled as `Nat`/`Int`; `u32` arithmetic is
taken modulo `2^32` where the source performs `u32` additions, and the `u32`
sentinel `u32::MAX` is the literal `4294967295`.  Panics are modelled with
`Except String`; `f32` values are modelled as real numbers.
-/

namespace Midisynth

/-- `u32::MAX`, the exhaustion sentinel used by `SequencedTrack`. -/
def U32MAX : Nat := 4294967295

/-- `2^32`, the modulus of `u32` arithmetic. -/
def U32MOD : Nat := 4294967296

/-- The event kinds that `Sequencer::play_all` distinguishes
(`midly::TrackEventKind`).  The payload of a track-name meta event is the
result of the best-effort UTF-8 decode `String::from_utf8(..).ok()` performed
by the external string library; all kinds the player ignores are `other`. -/
inductive EventKind where
  | tempo (t : Nat)
  | trackName (n : Option String)
  | endOfTrack
  | noteOn (key vel : Nat)
  | other
deriving DecidableEq

/-- `midly::TrackEvent`: a delta-time (in ticks) and an event kind. -/
structure TrackEvent where
  delta : Nat
  kind : EventKind
deriving DecidableEq

/-- `SequencedTrack`: per-track cursor state.  `rest` is the not-yet-popped
part of the iterator, `next` the lookahead event, `ticks` the current
absolute tick (`u32`), `count` the original event count. -/
structure SequencedTrack where
  rest : List TrackEvent
  next : Option TrackEvent
  ticks : Nat
  count : Nat
deriving DecidableEq

/-- `SequencedTrack::advance`: pop the next event; if none remains set
`ticks` to `u32::MAX`, otherwise add the popped event's delta (a `u32`
addition, hence modulo `2^32`). -/
def SequencedTrack.advance (t : SequencedTrack) : SequencedTrack :=
  match t.rest with
  | [] => { t with rest := [], next := none, ticks := U32MAX }
  | e :: es => { t with rest := es, next := some e, ticks := (t.ticks + e.delta) % U32MOD }

/-- `SequencedTrack::create`: start at tick 0 with no lookahead, then
advance once. -/
def SequencedTrack.create (l : List TrackEvent) : SequencedTrack :=
  SequencedTrack.advance { rest := l, next := none, ticks := 0, count := l.length }

/-- `SequencerEvent`: owning track index, absolute tick, event payload. -/
structure SequencerEvent where
  idx : Nat
  ticks : Nat
  event : TrackEvent
deriving DecidableEq

/-- `Iterator::min_by_key` over an enumerated list of tick values, starting
at index `i`: returns `(index, value)` of the minimum, preferring the
earliest index on ties (the documented first-minimum semantics of
`min_by_key`). -/
def minTickFrom : Nat → List Nat → Option (Nat × Nat)
  | _, [] => none
  | i, v :: vs =>
    match minTickFrom (i + 1) vs with
    | none => some (i, v)
    | some (j, w) => if w < v then some (j, w) else some (i, v)

/-- `Sequencer`: the collection of per-track cursors. -/
structure Sequencer where
  tracks : List SequencedTrack
deriving DecidableEq

/-- `Sequencer::next`: select the cursor with the minimum tick (lowest index
on ties); if its tick is the `u32::MAX` sentinel the stream has ended,
otherwise emit its lookahead event and advance it.  The two `none` fallbacks
for a missing index or missing lookahead model the unreachable
`self.tracks[idx]` / `.unwrap()` panics. -/
def Sequencer.next (s : Sequencer) : Option (SequencerEvent × Sequencer) :=
  match minTickFrom 0 (s.tracks.map (·.ticks)) with
  | none => none
  | some (idx, ticks) =>
    if ticks = U32MAX then none
    else
      match s.tracks[idx]? with
      | none => none
      | some tr =>
        match tr.next with
        | none => none
        | some event =>
          some ({ idx := idx, ticks := ticks, event := event },
                { tracks := s.tracks.set idx tr.advance })

/-- Driver: the list of events emitted by repeated `Sequencer::next` calls,
with explicit fuel (any fuel at least the total event count is enough). -/
def runSeq : Nat → Sequencer → List SequencerEvent
  | 0, _ => []
  | fuel + 1, s =>
    match s.next with
    | none => []
    | some (e, s') => e :: runSeq fuel s'

/-- `PlayerEvent`: absolute time in microseconds, note number, velocity. -/
structure PlayerEvent where
  time : Nat
  note : Nat
  velocity : Nat
deriving DecidableEq

/-- `PlayerTrack`: optional display name, total length in microseconds,
note-on events in emission order. -/
structure PlayerTrack where
  name : Option String := none
  length : Nat := 0
  events : List PlayerEvent := []
deriving DecidableEq

/-- `midly::Timing`: metrical (ticks per quarter note) or the unsupported
timecode form. -/
inductive Timing where
  | metrical (tpb : Nat)
  | timecode
deriving DecidableEq

/-- The mutable state of the time-mapping loop in `Sequencer::play_all`:
current tempo (µs per quarter), anchor time, anchor tick, and the per-track
output.  `usize` quantities are modelled as `Nat` (64-bit overflow is
unreachable for tick and tempo magnitudes bounded by `u32`/`u24`). -/
structure MapState where
  tempo : Nat
  baseTime : Nat
  baseTicks : Nat
  tracks : List PlayerTrack
deriving DecidableEq

/-- Wrapping `u32` subtraction `a - b` (for `a, b < 2^32`); equals `a - b`
when `b ≤ a`. -/
def wsub32 (a b : Nat) : Nat := (a + U32MOD - b) % U32MOD

/-- `tracks[i] := f tracks[i]`; the out-of-range case (a panic in Rust) is
unreachable because event indices come from enumerating the same list. -/
def modifyTrack (tracks : List PlayerTrack) (i : Nat) (f : PlayerTrack → PlayerTrack) :
    List PlayerTrack :=
  match tracks[i]? with
  | some tr => tracks.set i (f tr)
  | none => tracks

/-- The time that the Time Mapper assigns to an event at absolute tick
`ticks` in state `st`: `anchor_time + (ticks - anchor_tick) * tempo / tpb`. -/
def timeOf (tpb : Nat) (st : MapState) (ticks : Nat) : Nat :=
  st.baseTime + wsub32 ticks st.baseTicks * st.tempo / tpb

/-- One iteration of the `while let Some(e) = self.next()` body of
`Sequencer::play_all`: compute the event's time from the current anchor and
tempo, then dispatch on the event kind. -/
def playStep (tpb : Nat) (st : MapState) (e : SequencerEvent) : MapState :=
  let deltaTicks := wsub32 e.ticks st.baseTicks
  let deltaTime := deltaTicks * st.tempo / tpb
  let time := st.baseTime + deltaTime
  match e.event.kind with
  | .tempo t =>
      { st with tempo := t,
                baseTime := st.baseTime + deltaTime,
                baseTicks := (st.baseTicks + deltaTicks) % U32MOD }
  | .trackName n =>
      { st with tracks := modifyTrack st.tracks e.idx (fun tr => { tr with name := n }) }
  | .endOfTrack =>
      { st with tracks := modifyTrack st.tracks e.idx (fun tr => { tr with length := time }) }
  | .noteOn k v =>
      { st with tracks := (modifyTrack st.tracks e.idx (fun tr =>
          { tr with events := tr.events ++ [{ time := time, note := k, velocity := v }] })) }
  | .other => st

/-- The player loop of `Sequencer::play_all`, with explicit fuel. -/
def playLoop (tpb : Nat) : Nat → Sequencer → MapState → MapState
  | 0, _, st => st
  | fuel + 1, s, st =>
    match s.next with
    | none => st
    | some (e, s') => playLoop tpb fuel s' (playStep tpb st e)

/-- Fuel that upper-bounds the number of events `Sequencer::next` can emit:
one per queued event plus one lookahead per track. -/
def seqFuel (s : Sequencer) : Nat :=
  s.tracks.foldl (fun a t => a + t.rest.length + 1) 0 + 1

/-- `Sequencer::play_all`: non-metrical timing hits `todo!()`, a panic;
otherwise run the time-mapping loop from tempo 500000 and anchor (0, 0) over
one default `PlayerTrack` per cursor. -/
def Sequencer.play_all (s : Sequencer) (timing : Timing) : Except String (List PlayerTrack) :=
  match timing with
  | .timecode => .error "not yet implemented"
  | .metrical tpb =>
    .ok (playLoop tpb (seqFuel s) s
      { tempo := 500000, baseTime := 0, baseTicks := 0,
        tracks := List.replicate s.tracks.length {} }).tracks

/-- A TOML value as used by `InstrumentSetting::from_toml`: integers, floats
(modelled as rationals), strings, tables, and anything else. -/
inductive Toml where
  | int (i : Int)
  | float (q : ℚ)
  | str (s : String)
  | table (entries : List (String × Toml))
  | other

/-- `toml::Value::get`: field lookup, `none` on a non-table value. -/
def Toml.get (v : Toml) (key : String) : Option Toml :=
  match v with
  | .table es => es.lookup key
  | _ => none

/-- `toml::Value::as_integer`. -/
def Toml.as_integer : Toml → Option Int
  | .int i => some i
  | _ => none

/-- Rust `v as u8` on an `i64`: truncation to the low byte. -/
def u8cast (i : Int) : Nat := (i % 256).toNat

/-- Rust `v as i8` on an `i64`: two's-complement truncation. -/
def i8cast (i : Int) : Int := (i + 128) % 256 - 128

/-- A numeric TOML value read `as f32` (the `pan`/`gain` match arms),
modelled as a rational. -/
def Toml.as_f32 : Toml → Option ℚ
  | .int i => some (i : ℚ)
  | .float q => some q
  | _ => none

/-- `InstrumentSetting`: bank, preset, optional transpose / pan / gain. -/
structure InstrumentSetting where
  bank : Nat
  preset : Nat
  transpose : Option Int
  pan : Option ℚ
  gain : Option ℚ
deriving DecidableEq

/-- `InstrumentSetting::from_toml`: missing bank or preset is a recoverable
per-instrument error. -/
def InstrumentSetting.from_toml (setting : Toml) : Except String InstrumentSetting :=
  match (setting.get "bank").bind Toml.as_integer with
  | none => .error "Missing bank value"
  | some b =>
    match (setting.get "preset").bind Toml.as_integer with
    | none => .error "Missing preset value"
    | some p =>
      .ok { bank := u8cast b
          , preset := u8cast p
          , transpose := ((setting.get "tsp").bind Toml.as_integer).map i8cast
          , pan := (setting.get "pan").bind Toml.as_f32
          , gain := (setting.get "gain").bind Toml.as_f32 }

/-- `u8::strict_add_signed`: `note + transpose`, panicking (modelled as an
`Except.error`) when the result does not fit in a `u8`. -/
def strictAddSigned (n : Nat) (t : Int) : Except String Nat :=
  if 0 ≤ (n : Int) + t ∧ (n : Int) + t ≤ 255 then .ok ((n : Int) + t).toNat
  else .error "attempt to add with overflow"

/-- `usize::next_multiple_of`: the smallest multiple of `m` that is `≥ n`
(for `m > 0`; `m = 0` panics in Rust and is junk here). -/
def nextMultipleOf (n m : Nat) : Nat :=
  if n % m = 0 then n else n + (m - n % m)

/-- The sample count allocated by `Renderer::render`:
`((track length + padding) * sample_rate / 1_000_000).next_multiple_of(block_size)`. -/
def renderSampleCount (len padding sr bs : Nat) : Nat :=
  nextMultipleOf ((len + padding) * sr / 1000000) bs

/-- The zero-filled output buffers `vec![0f32; sc]` allocated by
`Renderer::render` (the synthesis engine later fills them block by block
without changing their length). -/
def renderBuffers (len padding sr bs : Nat) : List ℝ × List ℝ :=
  (List.replicate (renderSampleCount len padding sr bs) 0,
   List.replicate (renderSampleCount len padding sr bs) 0)

/-- The block start times visited by `Renderer::render`:
`t = si * 1_000_000 / sr` for `si` in `(0..sc).step_by(bs)`. -/
def blockTimes (sc bs sr : Nat) : List Nat :=
  (List.range' 0 ((sc + bs - 1) / bs) bs).map (fun si => si * 1000000 / sr)

/-- The inner `loop` of `Renderer::render`: dispatch (note-on) every pending
event whose time is `≤ t`, transposing each note with
`strict_add_signed`; stop at the first event that is not yet due.  Returns
the dispatched note numbers and the remaining events. -/
def dispatchDue (t : Nat) (tsp : Int) : List PlayerEvent → Except String (List Nat × List PlayerEvent)
  | [] => .ok ([], [])
  | e :: es =>
    if e.time ≤ t then
      match strictAddSigned e.note tsp with
      | .error m => .error m
      | .ok n =>
        match dispatchDue t tsp es with
        | .error m => .error m
        | .ok (ns, rest) => .ok (n :: ns, rest)
    else .ok ([], e :: es)

/-- The block loop of `Renderer::render`, restricted to its observable
note-dispatch behaviour: for each block start time, dispatch the due events. -/
def renderBlocks (tsp : Int) : List Nat → List PlayerEvent → Except String (List Nat)
  | [], _ => .ok []
  | t :: ts, evs =>
    match dispatchDue t tsp evs with
    | .error m => .error m
    | .ok (ns, rest) =>
      match renderBlocks tsp ts rest with
      | .error m => .error m
      | .ok more => .ok (ns ++ more)

/-- The sequence of note numbers `Renderer::render` dispatches to the
synthesizer for a track, transpose and render geometry, or the panic message
if a transposition overflows. -/
def renderedNotes (track : PlayerTrack) (tsp : Int) (padding sr bs : Nat) :
    Except String (List Nat) :=
  renderBlocks tsp (blockTimes (renderSampleCount track.length padding sr bs) bs sr) track.events

/-- Which events of a pending list are due at time `t` (the prefix with
`time ≤ t`), and the rest. -/
def dueSplit (t : Nat) : List PlayerEvent → List PlayerEvent × List PlayerEvent
  | [] => ([], [])
  | e :: es =>
    if e.time ≤ t then
      let (d, r) := dueSplit t es
      (e :: d, r)
    else ([], e :: es)

/-- The events `Renderer::render` dispatches across all blocks, in dispatch
order. -/
def dispatchedEvents : List Nat → List PlayerEvent → List PlayerEvent
  | [], _ => []
  | t :: ts, evs =>
    let (d, r) := dueSplit t evs
    d ++ dispatchedEvents ts r

/-- Rust float truncation toward zero (`f32::trunc`), on reals. -/
noncomputable def rustTrunc (x : ℝ) : ℝ := if 0 ≤ x then (⌊x⌋ : ℝ) else (⌈x⌉ : ℝ)

/-- Rust `%` on floats: the remainder `x - y * (x / y).trunc()`, with the
sign of the dividend. -/
noncomputable def rustRem (x y : ℝ) : ℝ := x - y * rustTrunc (x / y)

/-- `MixerGainFactors`: the four direct/cross channel coefficients. -/
structure MixerGainFactors where
  l_to_l : ℝ
  l_to_r : ℝ
  r_to_l : ℝ
  r_to_r : ℝ

/-- `MixerGainFactors::new`: pan is mapped by `((pan % 1.0) + 1.0) / 2.0 * (π/2)`
to an angle, gain from dB by `10^(gain_db / 20)`; the cross terms floor the
trigonometric factor at zero (`.max(0.0)` binds to the `cos`/`sin` result). -/
noncomputable def MixerGainFactors.new (gain_db pan : ℝ) : MixerGainFactors :=
  let pan_rad := ((rustRem pan 1 + 1) / 2) * (Real.pi / 2)
  let gain := (10 : ℝ) ^ (gain_db / 20)
  { l_to_l := gain * Real.cos pan_rad
  , r_to_l := gain * max (Real.cos (pan_rad + Real.pi / 4)) 0
  , r_to_r := gain * Real.sin pan_rad
  , l_to_r := gain * max (Real.sin (pan_rad - Real.pi / 4)) 0 }

/-- The Gain-Factor Model exactly as the specification words it:
`direct = linear_gain × cos/sin(angle)` and
`cross = max(0, linear_gain × cos/sin(angle ± π/4))`. -/
noncomputable def gainFactorsSpec (gain_db pan : ℝ) : MixerGainFactors :=
  let angle := ((rustRem pan 1 + 1) / 2) * (Real.pi / 2)
  let linear_gain := (10 : ℝ) ^ (gain_db / 20)
  { l_to_l := linear_gain * Real.cos angle
  , r_to_l := max 0 (linear_gain * Real.cos (angle + Real.pi / 4))
  , r_to_r := linear_gain * Real.sin angle
  , l_to_r := max 0 (linear_gain * Real.sin (angle - Real.pi / 4)) }

/-- `MixerTrack`: a rendered stereo buffer and its gain factors. -/
structure MixerTrack where
  left : List ℝ
  right : List ℝ
  gainfactors : MixerGainFactors

/-- `Iterator::max` over the track buffer lengths (`none` on no tracks,
where the source's `.unwrap()` panics). -/
def iterMax? : List Nat → Option Nat
  | [] => none
  | v :: vs =>
    match iterMax? vs with
    | none => some v
    | some w => some (Nat.max v w)

/-- One track's contribution to the left output sample at index `si`:
`l_to_l * left[si] + r_to_l * right[si]`, reads past the end returning 0. -/
def trackContribL (t : MixerTrack) (si : Nat) : ℝ :=
  t.gainfactors.l_to_l * t.left.getD si 0 + t.gainfactors.r_to_l * t.right.getD si 0

/-- One track's contribution to the right output sample at index `si`. -/
def trackContribR (t : MixerTrack) (si : Nat) : ℝ :=
  t.gainfactors.l_to_r * t.left.getD si 0 + t.gainfactors.r_to_r * t.right.getD si 0

/-- The accumulated left output sample at index `si`. -/
def sampleL (tracks : List MixerTrack) (si : Nat) : ℝ :=
  tracks.foldl (fun a t => a + trackContribL t si) 0

/-- The accumulated right output sample at index `si`. -/
def sampleR (tracks : List MixerTrack) (si : Nat) : ℝ :=
  tracks.foldl (fun a t => a + trackContribR t si) 0

/-- The interleaved output after the first `n` iterations of the sample loop
of `Mixer::mix_stereo` (each iteration pushes the left then the right
accumulator). -/
def mixPrefix (tracks : List MixerTrack) : Nat → List ℝ
  | 0 => []
  | n + 1 => mixPrefix tracks n ++ [sampleL tracks n, sampleR tracks n]

/-- `Mixer`: the tracks to be mixed. -/
structure Mixer where
  tracks : List MixerTrack

/-- `Mixer::mix_stereo`: output length is twice the maximum left-buffer
length; `none` models the `.unwrap()` panic on an empty track list. -/
def Mixer.mix_stereo (m : Mixer) : Option (List ℝ) :=
  (iterMax? (m.tracks.map (·.left.length))).map (fun sc => mixPrefix m.tracks sc)

/-- The observable outcome of one `midisynth()` run: a panic (which aborts
the process), an `Err` returned to `main` (which reports it), or reaching
the mix-and-write stage with the spawned (track, instrument) workers. -/
inductive Outcome where
  | panicked (msg : String)
  | reported (msg : String)
  | wrote (workers : List (PlayerTrack × InstrumentSetting))
deriving DecidableEq

/-- The inner settings loop of `midisynth()`: one worker is pushed per
setting that parses; a setting with a missing bank or preset is skipped with
a warning. -/
def spawnSettings (track : PlayerTrack) (acc : List (PlayerTrack × InstrumentSetting)) :
    List Toml → List (PlayerTrack × InstrumentSetting)
  | [] => acc
  | setting :: rest =>
    match InstrumentSetting.from_toml setting with
    | .error _ => spawnSettings track acc rest
    | .ok is => spawnSettings track (acc ++ [(track, is)]) rest

/-- The worker-spawning loop of `midisynth()`: for each named track whose
name has instrument settings in the configuration, spawn one worker per
parsing setting; unnamed or unmatched tracks are skipped. -/
def spawnLoop (instr : String → Option (List Toml))
    (acc : List (PlayerTrack × InstrumentSetting)) :
    List PlayerTrack → List (PlayerTrack × InstrumentSetting)
  | [] => acc
  | track :: rest =>
    match track.name with
    | none => spawnLoop instr acc rest
    | some name =>
      match instr name with
      | none => spawnLoop instr acc rest
      | some settings => spawnLoop instr (spawnSettings track acc settings) rest

/-- The workers spawned by one run, starting from an empty thread list. -/
def spawnWorkers (ptracks : List PlayerTrack) (instr : String → Option (List Toml)) :
    List (PlayerTrack × InstrumentSetting) :=
  spawnLoop instr [] ptracks

/-- The pipeline of `midisynth()` after the external loads succeed: sequence
and play the tracks, spawn the rendering workers, fail with the zero-output
error if none was spawned, otherwise mix and write. -/
def midisynthRun (timing : Timing) (mtracks : List (List TrackEvent))
    (instr : String → Option (List Toml)) : Outcome :=
  match Sequencer.play_all { tracks := mtracks.map SequencedTrack.create } timing with
  | .error msg => .panicked msg
  | .ok ptracks =>
    let workers := spawnWorkers ptracks instr
    if workers.length = 0 then .reported "No music was generated"
    else .wrote workers

/-- `main`: the single top-level report-and-exit only sees an outcome that
was returned as `Err`; a panic aborts the process without reaching it. -/
def mainReport : Outcome → Option String
  | .reported msg => some msg
  | _ => none

deriving instance DecidableEq for Except

/-- Boolean check that a list of tick values is non-decreasing. -/
def isNondec : List Nat → Bool
  | [] => true
  | [_] => true
  | a :: b :: l => a ≤ b && isNondec (b :: l)

/-- The total delta-time of a list of events. -/
def sumDeltas (l : List TrackEvent) : Nat := (l.map (·.delta)).sum

/-- A cursor state is good when it is either marked exhausted or has a
lookahead event and its remaining deltas cannot overflow `u32`. -/
def goodTrack (t : SequencedTrack) : Prop :=
  t.ticks = U32MAX ∨ (t.next.isSome = true ∧ t.ticks + sumDeltas t.rest < U32MOD)

/-- All cursors of a sequencer are good. -/
def GoodSeq (s : Sequencer) : Prop := ∀ t ∈ s.tracks, goodTrack t

theorem isNondec_iff (l : List Nat) : isNondec l = true ↔ List.Chain' (· ≤ ·) l := by
  match l with
  | [] => simp [isNondec]
  | [_] => simp [isNondec]
  | a :: b :: l =>
    rw [List.chain'_cons, ← isNondec_iff (b :: l)]
    simp [isNondec, Bool.and_eq_true, decide_eq_true_iff]

theorem minTickFrom_eq_none {i : Nat} {l : List Nat} :
    minTickFrom i l = none ↔ l = [] := by
  cases l with
  | nil => simp [minTickFrom]
  | cons v vs =>
    simp only [minTickFrom]
    cases minTickFrom (i + 1) vs with
    | none => simp
    | some p =>
      obtain ⟨j, w⟩ := p
      by_cases h : w < v <;> simp [h]

theorem minTickFrom_get {i : Nat} {l : List Nat} {j w : Nat}
    (h : minTickFrom i l = some (j, w)) :
    i ≤ j ∧ l[j - i]? = some w := by
  induction l generalizing i j w with
  | nil => simp [minTickFrom] at h
  | cons v vs ih =>
    simp only [minTickFrom] at h
    rcases hm : minTickFrom (i + 1) vs with _ | ⟨j', w'⟩ <;> rw [hm] at h <;> dsimp only at h
    · obtain ⟨rfl, rfl⟩ : i = j ∧ v = w := by simpa using h
      simp
    · by_cases hlt : w' < v
      · rw [if_pos hlt] at h
        obtain ⟨rfl, rfl⟩ : j' = j ∧ w' = w := by simpa using h
        obtain ⟨hij, hget⟩ := ih hm
        refine ⟨by omega, ?_⟩
        have hji : j' - i = (j' - (i + 1)) + 1 := by omega
        rw [hji, List.getElem?_cons_succ]
        exact hget
      · rw [if_neg hlt] at h
        obtain ⟨rfl, rfl⟩ : i = j ∧ v = w := by simpa using h
        simp

theorem minTickFrom_le {i : Nat} {l : List Nat} {j w : Nat}
    (h : minTickFrom i l = some (j, w)) : ∀ x ∈ l, w ≤ x := by
  induction l generalizing i j w with
  | nil => simp [minTickFrom] at h
  | cons v vs ih =>
    simp only [minTickFrom] at h
    rcases hm : minTickFrom (i + 1) vs with _ | ⟨j', w'⟩ <;> rw [hm] at h <;> dsimp only at h
    · obtain ⟨rfl, rfl⟩ : i = j ∧ v = w := by simpa using h
      have hvs : vs = [] := minTickFrom_eq_none.mp hm
      subst hvs
      simp
    · by_cases hlt : w' < v
      · rw [if_pos hlt] at h
        obtain ⟨rfl, rfl⟩ : j' = j ∧ w' = w := by simpa using h
        intro x hx
        rcases List.mem_cons.mp hx with rfl | hx'
        · exact Nat.le_of_lt hlt
        · exact ih hm x hx'
      · rw [if_neg hlt] at h
        obtain ⟨rfl, rfl⟩ : i = j ∧ v = w := by simpa using h
        intro x hx
        rcases List.mem_cons.mp hx with rfl | hx'
        · exact Nat.le_refl _
        · exact Nat.le_trans (Nat.le_of_not_lt hlt) (ih hm x hx')

theorem minTickFrom_first {i : Nat} {l : List Nat} {j w : Nat}
    (h : minTickFrom i l = some (j, w)) :
    ∀ k x, k < j - i → l[k]? = some x → w < x := by
  induction l generalizing i j w with
  | nil => simp [minTickFrom] at h
  | cons v vs ih =>
    simp only [minTickFrom] at h
    rcases hm : minTickFrom (i + 1) vs with _ | ⟨j', w'⟩ <;> rw [hm] at h <;> dsimp only at h
    · obtain ⟨rfl, rfl⟩ : i = j ∧ v = w := by simpa using h
      intro k x hk
      omega
    · by_cases hlt : w' < v
      · rw [if_pos hlt] at h
        obtain ⟨rfl, rfl⟩ : j' = j ∧ w' = w := by simpa using h
        intro k x hk hget
        obtain ⟨hij, _⟩ := minTickFrom_get hm
        cases k with
        | zero =>
          rw [List.getElem?_cons_zero] at hget
          obtain rfl : v = x := by simpa using hget
          exact hlt
        | succ k' =>
          rw [List.getElem?_cons_succ] at hget
          exact ih hm k' x (by omega) hget
      · rw [if_neg hlt] at h
        obtain ⟨rfl, rfl⟩ : i = j ∧ v = w := by simpa using h
        intro k x hk
        omega

theorem advance_mono {t : SequencedTrack} (h : t.ticks + sumDeltas t.rest < U32MOD) :
    t.ticks ≤ t.advance.ticks := by
  rcases hr : t.rest with _ | ⟨e, es⟩ <;> simp only [SequencedTrack.advance, hr]
  · have : t.ticks < U32MOD := by
      have := h
      rw [hr] at this
      simpa [sumDeltas] using this
    simp only [U32MAX, U32MOD] at *
    omega
  · have hlt : t.ticks + e.delta < U32MOD := by
      rw [hr] at h
      simp only [sumDeltas, List.map_cons, List.sum_cons] at h
      omega
    rw [Nat.mod_eq_of_lt hlt]
    omega

theorem advance_good {t : SequencedTrack} (h : t.ticks + sumDeltas t.rest < U32MOD) :
    goodTrack t.advance := by
  rcases hr : t.rest with _ | ⟨e, es⟩ <;> simp only [SequencedTrack.advance, hr]
  · exact Or.inl rfl
  · rw [hr] at h
    simp only [sumDeltas, List.map_cons, List.sum_cons] at h
    refine Or.inr ⟨rfl, ?_⟩
    simp only [sumDeltas]
    rw [Nat.mod_eq_of_lt (by omega)]
    omega

theorem create_good {l : List TrackEvent} (h : sumDeltas l < U32MOD) :
    goodTrack (SequencedTrack.create l) := by
  exact advance_good (by simpa [sumDeltas] using h)

theorem next_some_elim {s : Sequencer} {e : SequencerEvent} {s' : Sequencer}
    (h : s.next = some (e, s')) :
    e.ticks ≠ U32MAX ∧
      ∃ tr, s.tracks[e.idx]? = some tr ∧ tr ∈ s.tracks ∧ tr.ticks = e.ticks ∧
        tr.next = some e.event ∧ s' = { tracks := s.tracks.set e.idx tr.advance } ∧
        minTickFrom 0 (s.tracks.map (·.ticks)) = some (e.idx, e.ticks) := by
  unfold Sequencer.next at h
  rcases hm : minTickFrom 0 (s.tracks.map (·.ticks)) with _ | ⟨idx, ticks⟩ <;>
    rw [hm] at h <;> dsimp only at h
  · exact absurd h (by simp)
  · by_cases hmax : ticks = U32MAX
    · rw [if_pos hmax] at h
      exact absurd h (by simp)
    · rw [if_neg hmax] at h
      rcases hg : s.tracks[idx]? with _ | tr <;> rw [hg] at h <;> dsimp only at h
      · exact absurd h (by simp)
      · rcases hn : tr.next with _ | ev <;> rw [hn] at h <;> dsimp only at h
        · exact absurd h (by simp)
        · have hpair := Option.some.inj h
          have he : ({ idx := idx, ticks := ticks, event := ev } : SequencerEvent) = e :=
            congrArg Prod.fst hpair
          have hs : ({ tracks := s.tracks.set idx tr.advance } : Sequencer) = s' :=
            congrArg Prod.snd hpair
          subst he
          subst hs
          have htr : tr.ticks = ticks := by
            obtain ⟨-, hget⟩ := minTickFrom_get hm
            rw [Nat.sub_zero, List.getElem?_map, hg] at hget
            simpa using hget
          exact ⟨hmax, tr, hg, List.getElem?_mem hg, htr, hn, rfl, hm⟩

theorem next_step {s : Sequencer} {e : SequencerEvent} {s' : Sequencer}
    (hg : GoodSeq s) (h : s.next = some (e, s')) :
    GoodSeq s' ∧ (∀ t ∈ s'.tracks, e.ticks ≤ t.ticks) ∧
      ∃ tr ∈ s.tracks, tr.ticks = e.ticks := by
  obtain ⟨hmax, tr, hget, hmem, htick, hnext, rfl, hm⟩ := next_some_elim h
  have hgt := hg tr hmem
  have hlt : tr.ticks + sumDeltas tr.rest < U32MOD := by
    rcases hgt with hmx | ⟨-, hlt⟩
    · exact absurd (htick ▸ hmx) hmax
    · exact hlt
  have hga : goodTrack tr.advance := advance_good hlt
  have hmono : tr.ticks ≤ tr.advance.ticks := advance_mono hlt
  refine ⟨?_, ?_, tr, hmem, htick⟩
  · intro t ht
    rcases List.mem_or_eq_of_mem_set ht with ht' | rfl
    · exact hg t ht'
    · exact hga
  · intro t ht
    rcases List.mem_or_eq_of_mem_set ht with ht' | rfl
    · have := minTickFrom_le hm t.ticks (List.mem_map_of_mem (·.ticks) ht')
      exact this
    · exact htick ▸ hmono

theorem runSeq_chain (fuel : Nat) (s : Sequencer) (lo : Nat)
    (hg : GoodSeq s) (hlo : ∀ t ∈ s.tracks, lo ≤ t.ticks) :
    List.Chain' (· ≤ ·) (lo :: (runSeq fuel s).map (·.ticks)) := by
  induction fuel generalizing s lo with
  | zero => simp [runSeq]
  | succ n ih =>
    rw [runSeq]
    rcases hn : s.next with _ | ⟨e, s'⟩
    · simp
    · dsimp only
      obtain ⟨hg', hlb, tr, hmem, htick⟩ := next_step hg hn
      rw [List.map_cons, List.chain'_cons]
      exact ⟨htick ▸ hlo tr hmem, ih s' e.ticks hg' hlb⟩

theorem wsub32_eq {a b : Nat} (hba : b ≤ a) (ha : a < U32MOD) : wsub32 a b = a - b := by
  unfold wsub32
  have h1 : a + U32MOD - b = (a - b) + U32MOD := by omega
  rw [h1, Nat.add_mod_right, Nat.mod_eq_of_lt (by omega)]

theorem iterMax?_eq_none {l : List Nat} : iterMax? l = none ↔ l = [] := by
  cases l with
  | nil => simp [iterMax?]
  | cons v vs =>
    simp only [iterMax?]
    cases iterMax? vs <;> simp

theorem iterMax?_le {l : List Nat} {m : Nat} (h : iterMax? l = some m) :
    ∀ x ∈ l, x ≤ m := by
  induction l generalizing m with
  | nil => simp [iterMax?] at h
  | cons v vs ih =>
    simp only [iterMax?] at h
    rcases hm : iterMax? vs with _ | w <;> rw [hm] at h <;> dsimp only at h
    · obtain rfl : v = m := by simpa using h
      have hvs : vs = [] := iterMax?_eq_none.mp hm
      subst hvs
      simp
    · obtain rfl : Nat.max v w = m := by simpa using h
      intro x hx
      rcases List.mem_cons.mp hx with rfl | hx'
      · exact Nat.le_max_left _ _
      · exact Nat.le_trans (ih hm x hx') (Nat.le_max_right _ _)

theorem mixPrefix_length (tracks : List MixerTrack) (n : Nat) :
    (mixPrefix tracks n).length = 2 * n := by
  induction n with
  | zero => rfl
  | succ m ih =>
    simp only [mixPrefix, List.length_append, ih, List.length_cons, List.length_nil]
    omega

theorem mixPrefix_get {tracks : List MixerTrack} (n i : Nat) (h : i < n) :
    (mixPrefix tracks n)[2 * i]? = some (sampleL tracks i) ∧
    (mixPrefix tracks n)[2 * i + 1]? = some (sampleR tracks i) := by
  induction n with
  | zero => omega
  | succ m ih =>
    have hlen := mixPrefix_length tracks m
    rcases Nat.lt_or_ge i m with him | him
    · obtain ⟨h1, h2⟩ := ih him
      constructor
      · rw [show mixPrefix tracks (m + 1)
              = mixPrefix tracks m ++ [sampleL tracks m, sampleR tracks m] from rfl,
            List.getElem?_append_left (by omega)]
        exact h1
      · rw [show mixPrefix tracks (m + 1)
              = mixPrefix tracks m ++ [sampleL tracks m, sampleR tracks m] from rfl,
            List.getElem?_append_left (by omega)]
        exact h2
    · obtain rfl : i = m := by omega
      constructor
      · rw [show mixPrefix tracks (i + 1)
              = mixPrefix tracks i ++ [sampleL tracks i, sampleR tracks i] from rfl,
            List.getElem?_append_right (by omega), hlen,
            show 2 * i - 2 * i = 0 from by omega]
        rfl
      · rw [show mixPrefix tracks (i + 1)
              = mixPrefix tracks i ++ [sampleL tracks i, sampleR tracks i] from rfl,
            List.getElem?_append_right (by omega), hlen,
            show 2 * i + 1 - 2 * i = 1 from by omega]
        rfl

theorem trackContrib_zero {t : MixerTrack} {si : Nat}
    (hl : t.left.length ≤ si) (hr : t.right.length ≤ si) :
    trackContribL t si = 0 ∧ trackContribR t si = 0 := by
  unfold trackContribL trackContribR
  rw [List.getD_eq_getElem?_getD, List.getElem?_eq_none (by omega),
      List.getD_eq_getElem?_getD t.right, List.getElem?_eq_none (by omega)]
  simp

theorem nextMultipleOf_spec (n m : Nat) (hm : 0 < m) :
    m ∣ nextMultipleOf n m ∧ n ≤ nextMultipleOf n m ∧
      ∀ k, m ∣ k → n ≤ k → nextMultipleOf n m ≤ k := by
  unfold nextMultipleOf
  by_cases h : n % m = 0
  · rw [if_pos h]
    exact ⟨Nat.dvd_of_mod_eq_zero h, Nat.le_refl n, fun k _ hk => hk⟩
  · rw [if_neg h]
    have hdm := Nat.div_add_mod n m
    have hrm : n % m < m := Nat.mod_lt _ hm
    have hmul : m * (n / m + 1) = m * (n / m) + m := by ring
    refine ⟨⟨n / m + 1, by omega⟩, by omega, ?_⟩
    rintro k ⟨c, rfl⟩ hnk
    have hqc : n / m + 1 ≤ c := by
      rcases Nat.lt_or_ge (n / m) c with hlt | hge
      · omega
      · have hcle : m * c ≤ m * (n / m) := Nat.mul_le_mul_left m hge
        omega
    have hfin : m * (n / m + 1) ≤ m * c := Nat.mul_le_mul_left m hqc
    omega

theorem dueSplit_mem (t : Nat) (l : List PlayerEvent) :
    (∀ e ∈ (dueSplit t l).1, e ∈ l) ∧ (∀ e ∈ (dueSplit t l).2, e ∈ l) := by
  induction l with
  | nil => simp [dueSplit]
  | cons e es ih =>
    simp only [dueSplit]
    by_cases h : e.time ≤ t
    · rw [if_pos h]
      obtain ⟨ih1, ih2⟩ := ih
      constructor
      · intro x hx
        rcases List.mem_cons.mp hx with rfl | hx'
        · exact List.mem_cons_self x _
        · exact List.mem_cons_of_mem _ (ih1 x hx')
      · intro x hx
        exact List.mem_cons_of_mem _ (ih2 x hx)
    · rw [if_neg h]
      exact ⟨by simp, fun x hx => hx⟩

theorem dispatchedEvents_mem (bts : List Nat) (l : List PlayerEvent) :
    ∀ e ∈ dispatchedEvents bts l, e ∈ l := by
  induction bts generalizing l with
  | nil => simp [dispatchedEvents]
  | cons t ts ih =>
    intro e he
    simp only [dispatchedEvents] at he
    rcases List.mem_append.mp he with hd | hr
    · exact (dueSplit_mem t l).1 e hd
    · exact (dueSplit_mem t l).2 e (ih (dueSplit t l).2 e hr)

theorem dispatchDue_ok {t : Nat} {tsp : Int} {l : List PlayerEvent}
    (h : ∀ e ∈ l, 0 ≤ (e.note : Int) + tsp ∧ (e.note : Int) + tsp ≤ 255) :
    dispatchDue t tsp l =
      .ok ((dueSplit t l).1.map (fun e => ((e.note : Int) + tsp).toNat), (dueSplit t l).2) := by
  induction l with
  | nil => rfl
  | cons e es ih =>
    simp only [dispatchDue, dueSplit]
    by_cases ht : e.time ≤ t
    · rw [if_pos ht, if_pos ht]
      have hb := h e (List.mem_cons_self e es)
      rw [show strictAddSigned e.note tsp = .ok ((e.note : Int) + tsp).toNat from by
            unfold strictAddSigned; rw [if_pos hb]]
      rw [ih (fun x hx => h x (List.mem_cons_of_mem e hx))]
      rfl
    · rw [if_neg ht, if_neg ht]
      rfl

theorem renderBlocks_ok {tsp : Int} {bts : List Nat} {l : List PlayerEvent}
    (h : ∀ e ∈ l, 0 ≤ (e.note : Int) + tsp ∧ (e.note : Int) + tsp ≤ 255) :
    renderBlocks tsp bts l =
      .ok ((dispatchedEvents bts l).map (fun e => ((e.note : Int) + tsp).toNat)) := by
  induction bts generalizing l with
  | nil => rfl
  | cons t ts ih =>
    simp only [renderBlocks, dispatchedEvents]
    rw [dispatchDue_ok h]
    dsimp only
    rw [ih (fun x hx => h x ((dueSplit_mem t l).2 x hx))]
    rw [List.map_append]

theorem spawnLoop_nomatch {instr : String → Option (List Toml)}
    {l : List PlayerTrack} (h : ∀ t ∈ l, ∀ n, t.name = some n → instr n = none)
    (acc : List (PlayerTrack × InstrumentSetting)) : spawnLoop instr acc l = acc := by
  induction l generalizing acc with
  | nil => rfl
  | cons track rest ih =>
    simp only [spawnLoop]
    rcases hn : track.name with _ | name
    · exact ih (fun t ht => h t (List.mem_cons_of_mem _ ht)) acc
    · dsimp only
      rw [h track (List.mem_cons_self _ _) name hn]
      exact ih (fun t ht => h t (List.mem_cons_of_mem _ ht)) acc

/-- Claim C7: for every Player Track the Renderer allocates left and right
buffers whose common length is the smallest multiple of the synthesis block
size that is at least `(track length + padding) * sample_rate / 1_000_000`
(integer arithmetic, as in the source), so the buffer covers the padded
track length rounded up to a block boundary. -/
theorem c7_sample_count (len padding sr bs : Nat) (hbs : 0 < bs) :
    (renderBuffers len padding sr bs).1.length = renderSampleCount len padding sr bs ∧
    (renderBuffers len padding sr bs).2.length = renderSampleCount len padding sr bs ∧
    bs ∣ renderSampleCount len padding sr bs ∧
    (len + padding) * sr / 1000000 ≤ renderSampleCount len padding sr bs ∧
    ∀ k, bs ∣ k → (len + padding) * sr / 1000000 ≤ k →
      renderSampleCount len padding sr bs ≤ k := by
  obtain ⟨h1, h2, h3⟩ := nextMultipleOf_spec ((len + padding) * sr / 1000000) bs hbs
  exact ⟨List.length_replicate .., List.length_replicate .., h1, h2, h3⟩

/-- Claim C7 witness: the padded track of 1 s at 44100 Hz with block size 64. -/
theorem c7_sample_count_witness :
    0 < 64 ∧
      ((renderBuffers 1000000 1500000 44100 64).1.length
          = renderSampleCount 1000000 1500000 44100 64 ∧
       (renderBuffers 1000000 1500000 44100 64).2.length
          = renderSampleCount 1000000 1500000 44100 64 ∧
       64 ∣ renderSampleCount 1000000 1500000 44100 64 ∧
       (1000000 + 1500000) * 44100 / 1000000 ≤ renderSampleCount 1000000 1500000 44100 64 ∧
       ∀ k, 64 ∣ k → (1000000 + 1500000) * 44100 / 1000000 ≤ k →
         renderSampleCount 1000000 1500000 44100 64 ≤ k) :=
  ⟨by decide, c7_sample_count 1000000 1500000 44100 64 (by decide)⟩

/-- Claim C9 (amended): a non-metrical time division makes the run abort
with the `todo!()` panic "not yet implemented"; the panic is not an `Err`
value, so the top-level report-and-exit in `main` never sees it. -/
theorem c9_todo_panic (mtracks : List (List TrackEvent))
    (instr : String → Option (List Toml)) :
    midisynthRun .timecode mtracks instr = .panicked "not yet implemented" ∧
    mainReport (midisynthRun .timecode mtracks instr) = none :=
  ⟨rfl, rfl⟩

/-- Claim C9 counterexample: on a concrete non-metrical input the run ends
in a panic, and the top-level report-and-exit handler of `main` receives
nothing — the failure does not propagate to it as a fatal error value. -/
theorem c9_counterexample :
    midisynthRun .timecode [[⟨0, .endOfTrack⟩]] (fun _ => none)
        = .panicked "not yet implemented" ∧
      mainReport (midisynthRun .timecode [[⟨0, .endOfTrack⟩]] (fun _ => none)) = none ∧
      ∀ msg, midisynthRun .timecode [[⟨0, .endOfTrack⟩]] (fun _ => none) ≠ .reported msg := by
  refine ⟨rfl, rfl, ?_⟩
  intro msg h
  rw [show midisynthRun .timecode [[⟨0, .endOfTrack⟩]] (fun _ => none)
        = .panicked "not yet implemented" from rfl] at h
  exact Outcome.noConfusion h

/-- Claim C8 (amended): when no instrument name matches any track name, no
worker is spawned and the run fails with the distinct zero-output error,
whose message is "No music was generated"; the audio-file writer (the
`wrote` outcome) is never invoked. -/
theorem c8_zero_output (tpb : Nat) (mtracks : List (List TrackEvent))
    (instr : String → Option (List Toml)) (ptracks : List PlayerTrack)
    (hplay : Sequencer.play_all { tracks := mtracks.map SequencedTrack.create }
        (.metrical tpb) = .ok ptracks)
    (hnomatch : ∀ t ∈ ptracks, ∀ n, t.name = some n → instr n = none) :
    midisynthRun (.metrical tpb) mtracks instr = .reported "No music was generated" ∧
    ∀ ws, midisynthRun (.metrical tpb) mtracks instr ≠ .wrote ws := by
  have hrun : midisynthRun (.metrical tpb) mtracks instr
      = .reported "No music was generated" := by
    unfold midisynthRun
    rw [hplay]
    dsimp only
    rw [show spawnWorkers ptracks instr = [] from spawnLoop_nomatch hnomatch []]
    rfl
  exact ⟨hrun, fun ws h => by rw [hrun] at h; simp at h⟩

/-- Claim C8 witness: one named track, empty instrument table. -/
theorem c8_zero_output_witness :
    (Sequencer.play_all
        { tracks := [[(⟨0, .trackName (some "piano")⟩ : TrackEvent),
                      ⟨0, .endOfTrack⟩]].map SequencedTrack.create } (.metrical 480)
      = .ok [{ name := some "piano", length := 0, events := [] }]) ∧
    (midisynthRun (.metrical 480)
        [[⟨0, .trackName (some "piano")⟩, ⟨0, .endOfTrack⟩]] (fun _ => none)
      = .reported "No music was generated" ∧
    ∀ ws, midisynthRun (.metrical 480)
        [[⟨0, .trackName (some "piano")⟩, ⟨0, .endOfTrack⟩]] (fun _ => none) ≠ .wrote ws) :=
  ⟨by decide,
    c8_zero_output 480 [[⟨0, .trackName (some "piano")⟩, ⟨0, .endOfTrack⟩]] (fun _ => none)
      [{ name := some "piano", length := 0, events := [] }] (by decide)
      (fun t ht n hn => rfl)⟩

/-- Claim C8 counterexample: the zero-output message emitted by the code is
"No music was generated", not "no audio was produced" as the claim states. -/
theorem c8_counterexample :
    midisynthRun (.metrical 480)
        [[⟨0, .trackName (some "piano")⟩, ⟨0, .endOfTrack⟩]] (fun _ => none)
      = .reported "No music was generated" ∧
    midisynthRun (.metrical 480)
        [[⟨0, .trackName (some "piano")⟩, ⟨0, .endOfTrack⟩]] (fun _ => none)
      ≠ .reported "no audio was produced" := by
  constructor
  · decide
  · decide

/-- A track whose seventeenth prefix-sum of deltas is exactly `u32::MAX`:
sixteen maximal `u28` deltas followed by a note-on 15 ticks later and an
end-of-track meta. -/
def sentinelTrack : List TrackEvent :=
  List.replicate 16 ⟨268435455, .other⟩ ++ [⟨15, .noteOn 60 64⟩, ⟨0, .endOfTrack⟩]

/-- Claim C10: the exhausted state of a cursor is represented by the tick
value `u32::MAX = 2^32 - 1`; a cursor whose tick equals that sentinel is
never the source of an emitted event, so on an input whose accumulated tick
legitimately reaches `2^32 - 1` the event at that tick and all later events
of the track are dropped (here: 16 of 18 events are emitted). -/
theorem c10_sentinel :
    (∀ t : SequencedTrack, t.rest = [] → t.advance.ticks = U32MAX) ∧
    (∀ (s : Sequencer) (e : SequencerEvent) (s' : Sequencer), s.next = some (e, s') →
      e.ticks ≠ U32MAX ∧
        ∀ i t, s.tracks[i]? = some t → t.ticks = U32MAX → i ≠ e.idx) ∧
    sentinelTrack.length = 18 ∧
    (runSeq 20 { tracks := [SequencedTrack.create sentinelTrack] }).length = 16 := by
  refine ⟨?_, ?_, by decide, by decide⟩
  · intro t ht
    rcases t with ⟨rest, next, ticks, count⟩
    dsimp only at ht
    subst ht
    rfl
  · intro s e s' h
    obtain ⟨hmax, tr, hget, _, htick, _, _, _⟩ := next_some_elim h
    refine ⟨hmax, ?_⟩
    intro i t hgt htm hie
    subst hie
    rw [hget] at hgt
    obtain rfl : tr = t := by simpa using hgt
    exact hmax (htick ▸ htm)

/-- Claim C10 witness: an empty cursor advances to the sentinel. -/
theorem c10_sentinel_witness :
    ({ rest := [], next := some ⟨3, .other⟩, ticks := 7, count := 2 } :
        SequencedTrack).rest = [] ∧
    ({ rest := [], next := some ⟨3, .other⟩, ticks := 7, count := 2 } :
        SequencedTrack).advance.ticks = U32MAX :=
  ⟨rfl, c10_sentinel.1 _ rfl⟩

/-- A track whose accumulated ticks wrap past `2^32`: sixteen maximal `u28`
deltas followed by a delta of 20. -/
def wrapTrack : List TrackEvent :=
  List.replicate 16 ⟨268435455, .other⟩ ++ [⟨20, .other⟩]

/-- Claim C4 counterexample: tick accumulation is wrapping `u32`
arithmetic, so a track whose deltas sum past `2^32` makes the emitted tick
sequence decrease (from 4294967280 to 4). -/
theorem c4_counterexample :
    ¬ List.Chain' (· ≤ ·)
      ((runSeq 18 { tracks := [SequencedTrack.create wrapTrack] }).map (·.ticks)) := by
  rw [← isNondec_iff]
  decide

/-- Claim C4 (amended): provided no track's total delta-time exceeds the
`u32` range (so no tick accumulation wraps), a cursor's tick never decreases
across `advance`, and the tick sequence emitted by repeated
`Sequencer::next` calls is non-decreasing. -/
theorem c4_monotone (mtracks : List (List TrackEvent))
    (hsum : ∀ l ∈ mtracks, sumDeltas l < U32MOD) (fuel : Nat) :
    (∀ t : SequencedTrack, t.ticks + sumDeltas t.rest < U32MOD →
      t.ticks ≤ t.advance.ticks) ∧
    List.Chain' (· ≤ ·)
      ((runSeq fuel { tracks := mtracks.map SequencedTrack.create }).map (·.ticks)) := by
  refine ⟨fun t ht => advance_mono ht, ?_⟩
  have hg : GoodSeq { tracks := mtracks.map SequencedTrack.create } := by
    intro t ht
    obtain ⟨l, hl, rfl⟩ := List.mem_map.mp ht
    exact create_good (hsum l hl)
  exact (runSeq_chain fuel _ 0 hg (fun t _ => Nat.zero_le _)).tail

/-- Claim C4 witness: two small tracks. -/
theorem c4_monotone_witness :
    (∀ l ∈ [[(⟨5, .noteOn 60 64⟩ : TrackEvent)], [⟨7, .other⟩]], sumDeltas l < U32MOD) ∧
    ((∀ t : SequencedTrack, t.ticks + sumDeltas t.rest < U32MOD →
        t.ticks ≤ t.advance.ticks) ∧
      List.Chain' (· ≤ ·)
        ((runSeq 5 { tracks := ([[(⟨5, .noteOn 60 64⟩ : TrackEvent)], [⟨7, .other⟩]].map SequencedTrack.create) }).map (·.ticks))) :=
  ⟨by decide, c4_monotone _ (by decide) 5⟩

/-- Claim C1 counterexample: transposition in `Renderer::render` uses
`strict_add_signed`, which panics instead of saturating: a buffered note 0
with transpose -1 aborts rendering, so dispatch does not succeed for every
note and transpose. -/
theorem c1_counterexample :
    renderedNotes { name := none, length := 0, events := [⟨0, 0, 64⟩] } (-1) 1500000 44100 64
      = .error "attempt to add with overflow" := by decide

/-- Claim C1 (amended): every note the Renderer dispatches equals the
buffered note shifted by the instrument's transpose via strict
(panic-on-overflow) addition: when every buffered note plus transpose lies
in the representable `u8` range, rendering panics nowhere and dispatches
exactly the due events, in order, each with note number `note + transpose`
(neither wrapped nor saturated); otherwise rendering panics. -/
theorem c1_strict_transpose (track : PlayerTrack) (tsp : Int) (padding sr bs : Nat)
    (hbs : 0 < bs)
    (h : ∀ e ∈ track.events, 0 ≤ (e.note : Int) + tsp ∧ (e.note : Int) + tsp ≤ 255) :
    renderedNotes track tsp padding sr bs =
      .ok ((dispatchedEvents
              (blockTimes (renderSampleCount track.length padding sr bs) bs sr)
              track.events).map (fun e => ((e.note : Int) + tsp).toNat)) ∧
    ∀ e ∈ dispatchedEvents (blockTimes (renderSampleCount track.length padding sr bs) bs sr)
        track.events, e ∈ track.events :=
  ⟨renderBlocks_ok h, dispatchedEvents_mem _ _⟩

/-- Claim C1 witness: one due note 60 with transpose 12. -/
theorem c1_strict_transpose_witness :
    0 < 4 ∧
    (∀ e ∈ ({ name := none, length := 1000, events := [⟨0, 60, 100⟩] } : PlayerTrack).events,
      0 ≤ (e.note : Int) + 12 ∧ (e.note : Int) + 12 ≤ 255) ∧
    (renderedNotes { name := none, length := 1000, events := [⟨0, 60, 100⟩] } 12 0 1000000 4 =
      .ok ((dispatchedEvents
              (blockTimes (renderSampleCount 1000 0 1000000 4) 4 1000000)
              [⟨0, 60, 100⟩]).map (fun e => ((e.note : Int) + 12).toNat)) ∧
    ∀ e ∈ dispatchedEvents (blockTimes (renderSampleCount 1000 0 1000000 4) 4 1000000)
        [⟨0, 60, 100⟩], e ∈ ({ name := none, length := 1000, events := [⟨0, 60, 100⟩] } : PlayerTrack).events) :=
  ⟨by decide, by decide,
    c1_strict_transpose { name := none, length := 1000, events := [⟨0, 60, 100⟩] }
      12 0 1000000 4 (by decide) (by decide)⟩

/-- Claim C2: a tempo-change event at tick `T` gets its own time computed
with the tempo in effect before the change; the anchor is then re-pinned to
`(T, that time)` and the new tempo takes effect there, so any later tick
`T2` converts to `time + (T2 - T) * new_tempo / tpb`.  Concretely, with
ticks-per-quarter 480, initial tempo 500000 and a tempo-change to 1000000
at tick 960, the note at tick 1440 is assigned time 2000000 µs. -/
theorem c2_tempo_anchor :
    (∀ (tpb : Nat) (st : MapState) (e : SequencerEvent) (tnew : Nat),
      e.event.kind = .tempo tnew → st.baseTicks ≤ e.ticks → e.ticks < U32MOD →
      (playStep tpb st e).tempo = tnew ∧
      (playStep tpb st e).baseTicks = e.ticks ∧
      (playStep tpb st e).baseTime
        = st.baseTime + (e.ticks - st.baseTicks) * st.tempo / tpb ∧
      (∀ T2, e.ticks ≤ T2 → T2 < U32MOD →
        timeOf tpb (playStep tpb st e) T2
          = st.baseTime + (e.ticks - st.baseTicks) * st.tempo / tpb
            + (T2 - e.ticks) * tnew / tpb)) ∧
    Sequencer.play_all { tracks := [SequencedTrack.create
        [⟨960, .tempo 1000000⟩, ⟨480, .noteOn 60 64⟩, ⟨0, .endOfTrack⟩]] } (.metrical 480)
      = .ok [{ name := none, length := 2000000,
               events := [{ time := 2000000, note := 60, velocity := 64 }] }] := by
  refine ⟨?_, by decide⟩
  intro tpb st e tnew hk hle hlt
  have hw : wsub32 e.ticks st.baseTicks = e.ticks - st.baseTicks := wsub32_eq hle hlt
  have hstep : playStep tpb st e =
      { tempo := tnew,
        baseTime := st.baseTime + wsub32 e.ticks st.baseTicks * st.tempo / tpb,
        baseTicks := (st.baseTicks + wsub32 e.ticks st.baseTicks) % U32MOD,
        tracks := st.tracks } := by
    unfold playStep
    rw [hk]
  have hbt : (st.baseTicks + wsub32 e.ticks st.baseTicks) % U32MOD = e.ticks := by
    rw [hw, show st.baseTicks + (e.ticks - st.baseTicks) = e.ticks from by omega,
        Nat.mod_eq_of_lt hlt]
  refine ⟨by rw [hstep], by rw [hstep]; exact hbt, by rw [hstep, hw], ?_⟩
  intro T2 h2 hlt2
  unfold timeOf
  rw [hstep]
  dsimp only
  rw [hbt, hw, wsub32_eq h2 hlt2]

/-- Claim C2 witness: the concrete tempo-change of the test scenario. -/
theorem c2_tempo_anchor_witness :
    (({ idx := 0, ticks := 960, event := ⟨960, .tempo 1000000⟩ } :
        SequencerEvent).event.kind = .tempo 1000000) ∧
    (({ tempo := 500000, baseTime := 0, baseTicks := 0, tracks := [] } :
        MapState).baseTicks ≤ 960) ∧
    (960 < U32MOD) ∧
    ((playStep 480 { tempo := 500000, baseTime := 0, baseTicks := 0, tracks := [] }
        { idx := 0, ticks := 960, event := ⟨960, .tempo 1000000⟩ }).tempo = 1000000 ∧
     (playStep 480 { tempo := 500000, baseTime := 0, baseTicks := 0, tracks := [] }
        { idx := 0, ticks := 960, event := ⟨960, .tempo 1000000⟩ }).baseTicks = 960 ∧
     (playStep 480 { tempo := 500000, baseTime := 0, baseTicks := 0, tracks := [] }
        { idx := 0, ticks := 960, event := ⟨960, .tempo 1000000⟩ }).baseTime
        = 0 + (960 - 0) * 500000 / 480 ∧
     (∀ T2, 960 ≤ T2 → T2 < U32MOD →
       timeOf 480 (playStep 480 { tempo := 500000, baseTime := 0, baseTicks := 0, tracks := [] }
          { idx := 0, ticks := 960, event := ⟨960, .tempo 1000000⟩ }) T2
         = 0 + (960 - 0) * 500000 / 480 + (T2 - 960) * 1000000 / 480)) :=
  ⟨rfl, by decide, by decide,
    c2_tempo_anchor.1 480 { tempo := 500000, baseTime := 0, baseTicks := 0, tracks := [] }
      { idx := 0, ticks := 960, event := ⟨960, .tempo 1000000⟩ } 1000000 rfl
      (by decide) (by decide)⟩

/-- Claim C3: whenever two or more non-exhausted cursors share the minimum
tick `m`, `Sequencer::next` deterministically emits the lookahead event of
the cursor with the lowest track index: the returned index holds a cursor at
tick `m` and every cursor with a smaller index has a strictly larger tick. -/
theorem c3_tie_break (s : Sequencer) (m i j : Nat) (ti tj : SequencedTrack)
    (hns : ∀ t ∈ s.tracks, t.ticks ≠ U32MAX → t.next.isSome = true)
    (hij : i < j) (hi : s.tracks[i]? = some ti) (hj : s.tracks[j]? = some tj)
    (him : ti.ticks = m) (hjm : tj.ticks = m) (hmax : m ≠ U32MAX)
    (hmin : ∀ t ∈ s.tracks, m ≤ t.ticks) :
    ∃ (e : SequencerEvent) (s' : Sequencer) (tr : SequencedTrack),
      s.next = some (e, s') ∧ e.ticks = m ∧
      s.tracks[e.idx]? = some tr ∧ tr.ticks = m ∧ tr.next = some e.event ∧
      ∀ (k : Nat) (t : SequencedTrack), k < e.idx → s.tracks[k]? = some t → m < t.ticks := by
  rcases hm : minTickFrom 0 (s.tracks.map (·.ticks)) with _ | ⟨idx, w⟩
  · have : s.tracks.map (·.ticks) = [] := minTickFrom_eq_none.mp hm
    rw [List.map_eq_nil_iff] at this
    rw [this] at hi
    simp at hi
  · obtain ⟨-, hget⟩ := minTickFrom_get hm
    rw [Nat.sub_zero, List.getElem?_map] at hget
    rcases htr : s.tracks[idx]? with _ | tr
    · rw [htr] at hget
      simp at hget
    · rw [htr] at hget
      have htick : tr.ticks = w := by simpa using hget
      have hwm : w = m := by
        have h1 : w ≤ m := him ▸ minTickFrom_le hm ti.ticks
          (List.mem_map_of_mem (·.ticks) (List.getElem?_mem hi))
        have h2 : m ≤ w := htick ▸ hmin tr (List.getElem?_mem htr)
        omega
      subst hwm
      obtain ⟨ev, hev⟩ := Option.isSome_iff_exists.mp
        (hns tr (List.getElem?_mem htr) (htick ▸ hmax))
      refine ⟨{ idx := idx, ticks := w, event := ev },
              { tracks := s.tracks.set idx tr.advance }, tr, ?_, rfl, htr, htick, hev, ?_⟩
      · unfold Sequencer.next
        rw [hm]
        dsimp only
        rw [if_neg hmax, htr]
        dsimp only
        rw [hev]
      · intro k t hk hkt
        dsimp only at hk
        have := minTickFrom_first hm k t.ticks (by omega)
          (by rw [List.getElem?_map, hkt]; rfl)
        omega

/-- Claim C3 witness: two cursors tied at tick 5. -/
theorem c3_tie_break_witness :
    (∀ t ∈ ({ tracks := [SequencedTrack.create [⟨5, .noteOn 60 100⟩],
        SequencedTrack.create [⟨5, .noteOn 62 100⟩]] } : Sequencer).tracks,
      t.ticks ≠ U32MAX → t.next.isSome = true) ∧
    (∃ (e : SequencerEvent) (s' : Sequencer) (tr : SequencedTrack),
      ({ tracks := [SequencedTrack.create [⟨5, .noteOn 60 100⟩],
          SequencedTrack.create [⟨5, .noteOn 62 100⟩]] } : Sequencer).next = some (e, s') ∧
      e.ticks = 5 ∧
      ({ tracks := [SequencedTrack.create [⟨5, .noteOn 60 100⟩],
          SequencedTrack.create [⟨5, .noteOn 62 100⟩]] } : Sequencer).tracks[e.idx]?
        = some tr ∧
      tr.ticks = 5 ∧ tr.next = some e.event ∧
      ∀ (k : Nat) (t : SequencedTrack), k < e.idx →
        ({ tracks := [SequencedTrack.create [⟨5, .noteOn 60 100⟩],
            SequencedTrack.create [⟨5, .noteOn 62 100⟩]] } : Sequencer).tracks[k]?
          = some t → 5 < t.ticks) :=
  ⟨by decide,
    c3_tie_break _ 5 0 1 (SequencedTrack.create [⟨5, .noteOn 60 100⟩])
      (SequencedTrack.create [⟨5, .noteOn 62 100⟩]) (by decide) (by decide)
      (by decide) (by decide) (by decide) (by decide) (by decide) (by decide)⟩

/-- Claim C5: `Mixer::mix_stereo` produces an interleaved output whose
per-channel length is the maximum buffer length among all tracks; sample
`2*si` is the sum over tracks of `direct_left*L + cross_right_to_left*R`
and sample `2*si + 1` the sum of `cross_left_to_right*L + direct_right*R`
(reads past a buffer's end being 0), and a track contributes exactly 0 to
both channels at every index at or beyond its own length. -/
theorem c5_mix (m : Mixer) (sc : Nat)
    (heq : ∀ t ∈ m.tracks, t.left.length = t.right.length)
    (hsc : iterMax? (m.tracks.map (·.left.length)) = some sc) :
    ∃ out, m.mix_stereo = some out ∧
      out.length = 2 * sc ∧
      (∀ si, si < sc →
        out[2 * si]? = some (sampleL m.tracks si) ∧
        out[2 * si + 1]? = some (sampleR m.tracks si)) ∧
      (∀ t si, trackContribL t si
          = t.gainfactors.l_to_l * t.left.getD si 0 + t.gainfactors.r_to_l * t.right.getD si 0
        ∧ trackContribR t si
          = t.gainfactors.l_to_r * t.left.getD si 0 + t.gainfactors.r_to_r * t.right.getD si 0) ∧
      (∀ t ∈ m.tracks, ∀ si, t.left.length ≤ si →
        trackContribL t si = 0 ∧ trackContribR t si = 0) := by
  refine ⟨mixPrefix m.tracks sc, ?_, mixPrefix_length _ _,
    fun si hsi => mixPrefix_get _ _ hsi, fun t si => ⟨rfl, rfl⟩, ?_⟩
  · unfold Mixer.mix_stereo
    rw [hsc]
    rfl
  · intro t ht si hlen
    exact trackContrib_zero hlen (heq t ht ▸ hlen)

/-- Claim C5 witness: two tracks of lengths 2 and 1. -/
theorem c5_mix_witness :
    (∀ t ∈ ({ tracks := [⟨[1, 2], [3, 4], ⟨1, 0, 0, 1⟩⟩, ⟨[5], [6], ⟨1, 1, 1, 1⟩⟩] } :
        Mixer).tracks, t.left.length = t.right.length) ∧
    (iterMax? ((({ tracks := [⟨[1, 2], [3, 4], ⟨1, 0, 0, 1⟩⟩, ⟨[5], [6], ⟨1, 1, 1, 1⟩⟩] } :
        Mixer).tracks).map (·.left.length)) = some 2) ∧
    (∃ out, ({ tracks := [⟨[1, 2], [3, 4], ⟨1, 0, 0, 1⟩⟩, ⟨[5], [6], ⟨1, 1, 1, 1⟩⟩] } :
        Mixer).mix_stereo = some out ∧
      out.length = 2 * 2 ∧
      (∀ si, si < 2 →
        out[2 * si]? = some (sampleL ({ tracks := [⟨[1, 2], [3, 4], ⟨1, 0, 0, 1⟩⟩,
          ⟨[5], [6], ⟨1, 1, 1, 1⟩⟩] } : Mixer).tracks si) ∧
        out[2 * si + 1]? = some (sampleR ({ tracks := [⟨[1, 2], [3, 4], ⟨1, 0, 0, 1⟩⟩,
          ⟨[5], [6], ⟨1, 1, 1, 1⟩⟩] } : Mixer).tracks si)) ∧
      (∀ t si, trackContribL t si
          = t.gainfactors.l_to_l * t.left.getD si 0 + t.gainfactors.r_to_l * t.right.getD si 0
        ∧ trackContribR t si
          = t.gainfactors.l_to_r * t.left.getD si 0 + t.gainfactors.r_to_r * t.right.getD si 0) ∧
      (∀ t ∈ ({ tracks := [⟨[1, 2], [3, 4], ⟨1, 0, 0, 1⟩⟩, ⟨[5], [6], ⟨1, 1, 1, 1⟩⟩] } :
          Mixer).tracks, ∀ si, t.left.length ≤ si →
        trackContribL t si = 0 ∧ trackContribR t si = 0)) := by
  have heq : ∀ t ∈ ({ tracks := [⟨[1, 2], [3, 4], ⟨1, 0, 0, 1⟩⟩,
      ⟨[5], [6], ⟨1, 1, 1, 1⟩⟩] } : Mixer).tracks, t.left.length = t.right.length := by
    intro t ht
    rcases List.mem_cons.mp ht with rfl | ht'
    · rfl
    · rcases List.mem_cons.mp ht' with rfl | ht''
      · rfl
      · simp at ht''
  exact ⟨heq, rfl, c5_mix _ 2 heq rfl⟩

/-- Claim C6: the Gain-Factor Model computes exactly the specified pan law:
the code's `gain * max(cos/sin(..), 0)` equals the specified
`max(0, gain * cos/sin(..))` because the linear gain `10^(dB/20)` is
positive; at pan 0 and gain 0 dB both direct factors are `cos(π/4)` and both
cross factors are 0; and the cross factors are never negative. -/
theorem c6_gain_factors :
    (∀ gain_db pan : ℝ, MixerGainFactors.new gain_db pan = gainFactorsSpec gain_db pan) ∧
    (MixerGainFactors.new 0 0).l_to_l = Real.cos (Real.pi / 4) ∧
    (MixerGainFactors.new 0 0).r_to_r = Real.cos (Real.pi / 4) ∧
    (MixerGainFactors.new 0 0).r_to_l = 0 ∧
    (MixerGainFactors.new 0 0).l_to_r = 0 ∧
    (∀ gain_db pan : ℝ, 0 ≤ (MixerGainFactors.new gain_db pan).r_to_l ∧
      0 ≤ (MixerGainFactors.new gain_db pan).l_to_r) := by
  have hgain : ∀ g : ℝ, (0 : ℝ) < (10 : ℝ) ^ (g / 20) := fun g =>
    Real.rpow_pos_of_pos (by norm_num) _
  have hrem : rustRem 0 1 = 0 := by
    simp [rustRem, rustTrunc]
  have hangle : ((rustRem (0 : ℝ) 1 + 1) / 2) * (Real.pi / 2) = Real.pi / 4 := by
    rw [hrem]
    ring
  have hone : (10 : ℝ) ^ ((0 : ℝ) / 20) = 1 := by
    rw [zero_div, Real.rpow_zero]
  refine ⟨?_, ?_, ?_, ?_, ?_, ?_⟩
  · intro g p
    unfold MixerGainFactors.new gainFactorsSpec
    dsimp only
    rw [MixerGainFactors.mk.injEq]
    refine ⟨rfl, ?_, ?_, rfl⟩
    · rw [mul_max_of_nonneg _ _ (hgain g).le, mul_zero, max_comm]
    · rw [mul_max_of_nonneg _ _ (hgain g).le, mul_zero, max_comm]
  · unfold MixerGainFactors.new
    dsimp only
    rw [hangle, hone, one_mul]
  · unfold MixerGainFactors.new
    dsimp only
    rw [hangle, hone, one_mul, Real.sin_pi_div_four, Real.cos_pi_div_four]
  · unfold MixerGainFactors.new
    dsimp only
    rw [hangle, show Real.pi / 4 + Real.pi / 4 = Real.pi / 2 from by ring,
        Real.cos_pi_div_two, max_self, mul_zero]
  · unfold MixerGainFactors.new
    dsimp only
    rw [hangle, sub_self, Real.sin_zero, max_self, mul_zero]
  · intro g p
    constructor <;>
      exact mul_nonneg (hgain g).le (le_max_right _ _)

end Midisynth
